import Mathlib

/-!
Shallow embedding of the repository-patching decision engine of
src/dbdemos_tracker_updater.py (class DBDemosTrackerUpdater): the
Detector (check subroutines), the Dependency Patcher (add_dependency and
the four manifest edit functions), the Initialization Patcher
(add_initialization / add_tracker_init_to_file) and the Orchestrator
(process_single_repository / process_repositories).

File contents are modelled as lists of characters; a repository is a
list of files, each with its directory path segments, its name and its
content (file reads are modelled as always succeeding; sizes are
character counts).  External collaborators (git clone, commit, push,
pull-request creation) are modelled as opaque effects: the clone step is
a parameter that may fail, and commit/push/PR are collapsed into a
single orchestrator step.
-/

/-- The whitespace characters stripped by the Python str.strip method and
matched by the regex class backslash-s (ASCII and common Unicode set). -/
def isPySpace (c : Char) : Bool :=
  c = ' ' || c = '\t' || c = '\n' || c = '\x0b' || c = '\x0c' || c = '\r' ||
  c = '\x1c' || c = '\x1d' || c = '\x1e' || c = '\x1f' || c = '\x85' || c = '\xa0' ||
  c = '\u1680' || c = '\u2000' || c = '\u2001' || c = '\u2002' || c = '\u2003' ||
  c = '\u2004' || c = '\u2005' || c = '\u2006' || c = '\u2007' || c = '\u2008' ||
  c = '\u2009' || c = '\u200a' || c = '\u2028' || c = '\u2029' || c = '\u202f' ||
  c = '\u205f' || c = '\u3000'

/-- Python str.strip from the right end only. -/
def pyStripEnd (l : List Char) : List Char :=
  (l.reverse.dropWhile isPySpace).reverse

/-- Python str.strip: remove leading and trailing whitespace. -/
def pyStrip (l : List Char) : List Char :=
  pyStripEnd (l.dropWhile isPySpace)

/-- Python str.split with separator a newline character. -/
def splitLines : List Char → List (List Char)
  | [] => [[]]
  | c :: rest =>
    if c = '\n' then [] :: splitLines rest
    else
      match splitLines rest with
      | [] => [[c]]
      | l :: ls => (c :: l) :: ls

/-- Python newline.join: concatenate lines with a newline separator. -/
def joinLines : List (List Char) → List Char
  | [] => []
  | [l] => l
  | l :: ls => l ++ '\n' :: joinLines ls

/-- Python list.insert at a given index (indices past the end append). -/
def insertAt {α : Type} (ls : List α) (n : Nat) (x : α) : List α :=
  ls.take n ++ x :: ls.drop n

/-- Index of the first element satisfying a predicate (the for-loop with
an immediate break used throughout the source). -/
def findIdxFrom {α : Type} (p : α → Bool) : List α → Option Nat
  | [] => none
  | a :: as => if p a then some 0 else (findIdxFrom p as).map (· + 1)

/-- The Python substring operator (the keyword in) on file contents. -/
def pyIn (needle hay : List Char) : Bool :=
  decide (needle <:+: hay)

/-- Python str.replace: replace every non-overlapping occurrence of a
(nonempty, as in every use in this file) pattern, scanning left to right. -/
def replaceAll (s old new : List Char) : List Char :=
  if h : old ≠ [] ∧ old.isPrefixOf s then
    new ++ replaceAll (s.drop old.length) old new
  else
    match s with
    | [] => []
    | c :: rest => c :: replaceAll rest old new
termination_by s.length
decreasing_by
  · have hne : old ≠ [] := h.1
    have hpre : old <+: s := by
      have := h.2
      simpa using this
    have hlen : old.length ≤ s.length := hpre.length_le
    have h1 : 1 ≤ old.length := by
      cases old with
      | nil => exact absurd rfl hne
      | cons a t => simp
    have hs : 1 ≤ s.length := le_trans h1 hlen
    simp [List.length_drop]
    omega
  · simp

/-- The dependency identifier dbdemos-tracker used by every presence
check and insertion. -/
def trackerDep : List Char := "dbdemos-tracker".data

/-- Content written when a new requirements.txt is created, and appended
by add_to_requirements. -/
def trackerDepLine : List Char := "dbdemos-tracker\n".data

/-- add_to_requirements: append the dependency if the name is not
already a substring of the content. -/
def addToRequirements (c : List Char) : List Char × Bool :=
  if pyIn trackerDep c then (c, false)
  else (c ++ trackerDepLine, true)

/-- The pyproject.toml dependencies section header tested by
add_to_pyproject. -/
def pyprojectHeader : List Char := "[tool.poetry.dependencies]".data

/-- The Pipfile packages section header tested by add_to_pipfile. -/
def packagesHeader : List Char := "[packages]".data

/-- The line inserted below a section header by add_to_pyproject and
add_to_pipfile. -/
def tomlEntry : List Char := "dbdemos-tracker = \"*\"".data

/-- The insertion loop shared by add_to_pyproject and add_to_pipfile:
insert the entry line right after the first line whose stripped text
equals the header; if no line matches, leave the list unchanged. -/
def insertAfterTomlHeader (header : List Char) : List (List Char) → List (List Char)
  | [] => []
  | l :: ls =>
    if pyStrip l = header then l :: tomlEntry :: ls
    else l :: insertAfterTomlHeader header ls

/-- Common body of add_to_pyproject and add_to_pipfile (the two source
functions are textually identical up to the section header). -/
def addToTomlSection (header : List Char) (c : List Char) : List Char × Bool :=
  if pyIn trackerDep c then (c, false)
  else if pyIn header c then
    (joinLines (insertAfterTomlHeader header (splitLines c)), true)
  else (c, false)

/-- add_to_pyproject. -/
def addToPyproject (c : List Char) : List Char × Bool :=
  addToTomlSection pyprojectHeader c

/-- add_to_pipfile. -/
def addToPipfile (c : List Char) : List Char × Bool :=
  addToTomlSection packagesHeader c

/-- The literal install_requires keyword of the setup.py regex. -/
def irKw : List Char := "install_requires".data

/-- Match of the setup.py regex install_requires backslash-s star equals
backslash-s star open-bracket, lazily captured contents, close-bracket,
anchored at the start of the given suffix.  Returns the length of the
part up to and including the open bracket, and the length of the
captured group (up to the first close bracket). -/
def matchIRAt (s : List Char) : Option (Nat × Nat) :=
  if irKw.isPrefixOf s then
    let t1 := s.drop irKw.length
    let b := (t1.takeWhile isPySpace).length
    let t2 := t1.drop b
    if t2.head? = some '=' then
      let t3 := t2.drop 1
      let e := (t3.takeWhile isPySpace).length
      let t4 := t3.drop e
      if t4.head? = some '[' then
        let rest := t4.drop 1
        match findIdxFrom (fun ch => ch = ']') rest with
        | some d => some (irKw.length + b + 1 + e + 1, d)
        | none => none
      else none
    else none
  else none

/-- re.search for the install_requires pattern: leftmost match position
together with the lengths from matchIRAt. -/
def searchIR : List Char → Option (Nat × Nat × Nat)
  | [] => none
  | s@(_ :: t) =>
    match matchIRAt s with
    | some (h, d) => some (0, h, d)
    | none => (searchIR t).map (fun x => (x.1 + 1, x.2.1, x.2.2))

/-- The new list element appended by add_to_setup_py when the captured
list was non-empty (a comma, a newline and the quoted dependency). -/
def setupSepEntry : List Char := ",\n        \x27dbdemos-tracker\x27".data

/-- The sole list element inserted by add_to_setup_py into an empty
install_requires list. -/
def setupEmptyEntry : List Char := "\n        \x27dbdemos-tracker\x27\n    ".data

/-- add_to_setup_py: rewrite the matched install_requires list with the
dependency appended (using str.replace on the whole matched text). -/
def addToSetupPy (c : List Char) : List Char × Bool :=
  if pyIn trackerDep c then (c, false)
  else
    match searchIR c with
    | none => (c, false)
    | some (p, h, d) =>
      let seg := c.drop p
      let whole := seg.take (h + d + 1)
      let before := seg.take h
      let deps := (seg.drop h).take d
      let newDeps := if pyStrip deps = [] then setupEmptyEntry else deps ++ setupSepEntry
      (replaceAll c whole (before ++ newDeps ++ [']']), true)

/-- A file of a cloned repository workspace: directory path segments
(empty for the repository root), file name and content. -/
structure RepoFile where
  dirs : List String
  name : String
  content : List Char
deriving DecidableEq

/-- A cloned repository workspace: its files in directory-listing and
tree-traversal order. -/
abbrev Repo := List RepoFile

/-- Python str.endswith on file names (character-list based so that it
evaluates in the kernel). -/
def strEndsWith (s suffix : String) : Bool :=
  List.isSuffixOf suffix.data s.data

/-- Python str.startswith on file and directory names. -/
def strStartsWith (s pre : String) : Bool :=
  List.isPrefixOf pre.data s.data

/-- Whether a file is the root-level file of the given name. -/
def isRootFileNamed (n : String) (f : RepoFile) : Bool :=
  f.dirs.isEmpty && f.name = n

/-- Read a root-level file (os.path.exists plus open().read()). -/
def getRoot (r : Repo) (n : String) : Option (List Char) :=
  (r.find? (isRootFileNamed n)).map RepoFile.content

/-- Whole-file rewrite of a root-level file, creating it if absent. -/
def setRoot : Repo → String → List Char → Repo
  | [], n, c => [⟨[], n, c⟩]
  | f :: fs, n, c =>
    if isRootFileNamed n f then { f with content := c } :: fs
    else f :: setRoot fs n c

/-- Whole-file rewrite of an arbitrary file of the tree. -/
def setFile : Repo → List String → String → List Char → Repo
  | [], ds, n, c => [⟨ds, n, c⟩]
  | f :: fs, ds, n, c =>
    if f.dirs = ds && f.name = n then { f with content := c } :: fs
    else f :: setFile fs ds n c

/-- The manifest file names inspected by check_dependency_files, in
order. -/
def depFileNames : List String :=
  ["requirements.txt", "requirements-dev.txt", "setup.py", "pyproject.toml",
   "Pipfile", "poetry.lock"]

/-- check_dependency_files: does any recognized manifest contain the
dependency name as a substring. -/
def checkDependencyFiles (r : Repo) : Bool :=
  depFileNames.any (fun n =>
    match getRoot r n with
    | some c => pyIn trackerDep c
    | none => false)

/-- Match of the import regex (the from or the import keyword, one or
more whitespace characters, then dbdemos_tracker) anchored at the start
of the given suffix, for one keyword. -/
def kwThenTracker (kw : List Char) (s : List Char) : Bool :=
  kw.isPrefixOf s &&
  (match (s.drop kw.length).head? with
   | some c =>
     isPySpace c &&
     "dbdemos_tracker".data.isPrefixOf ((s.drop kw.length).dropWhile isPySpace)
   | none => false)

/-- Either alternative of the import regex anchored at the start. -/
def trackerImportRegexAt (s : List Char) : Bool :=
  kwThenTracker "from".data s || kwThenTracker "import".data s

/-- re.search of the import regex: does it match anywhere in the text. -/
def trackerRegexSearch : List Char → Bool
  | [] => false
  | s@(_ :: t) => trackerImportRegexAt s || trackerRegexSearch t

/-- check_tracker_imports: walk the tree skipping hidden directories and
test every .py file against the import regex. -/
def checkTrackerImports (r : Repo) : Bool :=
  r.any (fun f =>
    f.dirs.all (fun d => !strStartsWith d ".") && strEndsWith f.name ".py" &&
    trackerRegexSearch f.content)

/-- check_tracker_exists: dependency-file check first, then source scan. -/
def checkTrackerExists (r : Repo) : Bool :=
  checkDependencyFiles r || checkTrackerImports r

/-- add_dependency: apply the edit function of the first manifest present
in the fixed preference order; create requirements.txt when none exists.
Each edit function writes its file exactly when it reports a change. -/
def addDependency (r : Repo) : Repo × Bool :=
  match getRoot r "requirements.txt" with
  | some c =>
    let p := addToRequirements c
    (if p.2 then setRoot r "requirements.txt" p.1 else r, p.2)
  | none =>
  match getRoot r "pyproject.toml" with
  | some c =>
    let p := addToPyproject c
    (if p.2 then setRoot r "pyproject.toml" p.1 else r, p.2)
  | none =>
  match getRoot r "setup.py" with
  | some c =>
    let p := addToSetupPy c
    (if p.2 then setRoot r "setup.py" p.1 else r, p.2)
  | none =>
  match getRoot r "Pipfile" with
  | some c =>
    let p := addToPipfile c
    (if p.2 then setRoot r "Pipfile" p.1 else r, p.2)
  | none => (setRoot r "requirements.txt" trackerDepLine, true)

/-- The manifest selected by add_dependency, if any. -/
def chosenManifest (r : Repo) : Option String :=
  if (getRoot r "requirements.txt").isSome then some "requirements.txt"
  else if (getRoot r "pyproject.toml").isSome then some "pyproject.toml"
  else if (getRoot r "setup.py").isSome then some "setup.py"
  else if (getRoot r "Pipfile").isSome then some "Pipfile"
  else none

/-- The text of the tracker import statement inserted (and of the first
guard marker tested) by add_tracker_init_to_file. -/
def importMarker1 : List Char := "import dbdemos_tracker".data

/-- The second guard marker tested by add_tracker_init_to_file. -/
def importMarker2 : List Char := "from dbdemos_tracker".data

/-- The initialization call line inserted inside a main guard block. -/
def initCallLine : List Char := "    dbdemos_tracker.initialize()".data

/-- A line counting as an import statement for the import-insertion
scan (stripped text begins with an import-style keyword). -/
def isImportLine (l : List Char) : Bool :=
  "import ".data.isPrefixOf (pyStrip l) || "from ".data.isPrefixOf (pyStrip l)

/-- One past the index of the last import-style line (0 when there is
none): the index at which the tracker import is inserted. -/
def importInsertIdx : List (List Char) → Nat
  | [] => 0
  | l :: ls =>
    let r := importInsertIdx ls
    if r = 0 then (if isImportLine l then 1 else 0) else r + 1

/-- The main-guard detection: the line contains both dunder name and
dunder main as substrings. -/
def isMainGuardLine (l : List Char) : Bool :=
  pyIn "__name__".data l && pyIn "__main__".data l

/-- Continuation condition of the scan below a main guard: blank line or
a line starting with a space or a tab. -/
def blockScanCond (l : List Char) : Bool :=
  pyStrip l = [] || l.head? = some ' ' || l.head? = some '\t'

/-- A substantive line of the guard block: non-blank and not a comment. -/
def blockStmtCond (l : List Char) : Bool :=
  !(pyStrip l = [] : Bool) && !("#".data.isPrefixOf (pyStrip l))

/-- Scan below the main guard: offset of the first substantive line
reached while the continuation condition holds, if any. -/
def findInitPosInBlock : List (List Char) → Option Nat
  | [] => none
  | l :: ls =>
    if blockScanCond l then
      if blockStmtCond l then some 0
      else (findInitPosInBlock ls).map (· + 1)
    else none

/-- The main-guard insertion attempt of add_tracker_init_to_file. -/
def tryGuardInsert (lines : List (List Char)) : Option (List (List Char)) :=
  match findIdxFrom isMainGuardLine lines with
  | none => none
  | some i =>
    match findInitPosInBlock (lines.drop (i + 1)) with
    | some off => some (insertAt lines (i + 1 + off) initCallLine)
    | none => none

/-- re.match of def backslash-s plus main backslash-s star open-paren
against the stripped line. -/
def isDefMainLine (l : List Char) : Bool :=
  let s := pyStrip l
  "def".data.isPrefixOf s &&
  (match (s.drop 3).head? with
   | some c =>
     isPySpace c &&
     (let u := (s.drop 3).dropWhile isPySpace
      "main".data.isPrefixOf u && ((u.drop 4).dropWhile isPySpace).head? = some '(')
   | none => false)

/-- Skip blank and comment lines after a def main header: offset and
line of the first substantive line, if any. -/
def skipBlankComment : List (List Char) → Option (Nat × List Char)
  | [] => none
  | l :: ls =>
    if pyStrip l = [] || "#".data.isPrefixOf (pyStrip l) then
      (skipBlankComment ls).map (fun p => (p.1 + 1, p.2))
    else some (0, l)

/-- The def-main insertion attempt of add_tracker_init_to_file. -/
def tryMainInsert (lines : List (List Char)) : Option (List (List Char)) :=
  match findIdxFrom isDefMainLine lines with
  | none => none
  | some i =>
    match skipBlankComment (lines.drop (i + 1)) with
    | some (off, l) =>
      let indent := (l.takeWhile isPySpace).length
      some (insertAt lines (i + 1 + off)
        (List.replicate indent ' ' ++ "dbdemos_tracker.initialize()".data))
    | none => none

/-- add_tracker_init_to_file (pure part; the surrounding try/except is
modelled separately by addTrackerInitToFileRun): guard on either import
marker, insert the import after the last import-style line, then insert
the initialization call by the guard scan, the def-main scan, or as a
trailing marker comment block. -/
def addTrackerInitToFile (content : List Char) : List Char × Bool :=
  if pyIn importMarker1 content || pyIn importMarker2 content then
    (content, false)
  else
    let lines := splitLines content
    let lines1 := insertAt lines (importInsertIdx lines) importMarker1
    let lines2 :=
      match tryGuardInsert lines1 with
      | some ls => ls
      | none =>
        match tryMainInsert lines1 with
        | some ls => ls
        | none =>
          lines1 ++ [[], "# Initialize dbdemos tracker".data,
                     "dbdemos_tracker.initialize()".data]
    (joinLines lines2, true)

/-- The conventional entry-point names tried first by
add_initialization. -/
def entryPointNames : List String :=
  ["main.py", "app.py", "__main__.py", "run.py"]

/-- Root-level .py files not named setup-something, in listing order. -/
def rootPythonFiles (r : Repo) : List String :=
  (r.filter (fun f =>
    f.dirs.isEmpty && strEndsWith f.name ".py" && !strStartsWith f.name "setup")).map
    RepoFile.name

/-- First candidate name that exists at the repository root. -/
def findFirstExisting (r : Repo) : List String → Option String
  | [] => none
  | n :: ns => if (getRoot r n).isSome then some n else findFirstExisting r ns

/-- The .py files visited by the os.walk scan (hidden directories
pruned). -/
def walkPyFiles (r : Repo) : List RepoFile :=
  r.filter (fun f =>
    f.dirs.all (fun d => !strStartsWith d ".") && strEndsWith f.name ".py")

/-- The largest .py file by size, strictly-greater comparison from a
zero threshold (so empty files are never selected and the first largest
wins). -/
def largestPyFile (r : Repo) : Option RepoFile :=
  ((walkPyFiles r).foldl
    (fun acc f => if f.content.length > acc.1 then (f.content.length, some f) else acc)
    (0, (none : Option RepoFile))).2

/-- Content of the main.py synthesized when no Python file exists. -/
def mainPyTemplate : List Char :=
  "\"\"\"Main entry point with dbdemos tracker initialization.\"\"\"\n\nimport dbdemos_tracker\n\ndef main():\n    \"\"\"Main function.\"\"\"\n    dbdemos_tracker.initialize()\n    print(\"Application started with dbdemos tracker\")\n\nif __name__ == \"__main__\":\n    main()\n".data

/-- add_initialization: pick the first existing conventional or root
Python file, else the largest Python file of the tree, else synthesize
main.py. -/
def addInitialization (r : Repo) : Repo × Bool :=
  match findFirstExisting r (entryPointNames ++ rootPythonFiles r) with
  | some n =>
    match getRoot r n with
    | some c =>
      let p := addTrackerInitToFile c
      (if p.2 then setRoot r n p.1 else r, p.2)
    | none => (r, false)
  | none =>
    match largestPyFile r with
    | some f =>
      let p := addTrackerInitToFile f.content
      (if p.2 then setFile r f.dirs f.name p.1 else r, p.2)
    | none => (setRoot r "main.py" mainPyTemplate, true)

/-- The changes-made aggregation of add_tracker_to_repo: start false,
set on a dependency change, set on an initialization change. -/
def addTrackerToRepoFlag (dep init : Bool) : Bool :=
  dep || init

/-- add_tracker_to_repo: dependency patch then initialization patch. -/
def addTrackerToRepo (r : Repo) : Repo × Bool :=
  let p := addDependency r
  let q := addInitialization p.1
  (q.1, addTrackerToRepoFlag p.2 q.2)

/-- The externally visible steps of process_single_repository after the
detector check (commit, push and pull-request creation collapsed into
one step). -/
inductive OrchStep where
  | ranDependencyPatcher
  | ranInitPatcher
  | committedAndOpenedPR
  | warnedNoChanges
deriving DecidableEq

/-- process_single_repository on a cloned workspace: stop on an existing
integration, otherwise run both patchers and either proceed to
commit/push/PR or warn that nothing changed. -/
def processSingleRepository (r : Repo) : Repo × List OrchStep :=
  if checkTrackerExists r then (r, [])
  else
    let p := addTrackerToRepo r
    if p.2 then
      (p.1, [.ranDependencyPatcher, .ranInitPatcher, .committedAndOpenedPR])
    else
      (p.1, [.ranDependencyPatcher, .ranInitPatcher, .warnedNoChanges])

/-- process_repositories: per-URL clone (a fallible external step) then
processing, the whole body guarded by a catch-all that records the error
and continues with the next URL. -/
def processRepositoriesTrace (clone : String → Except String Repo) :
    List String → List (String × Except String (Repo × List OrchStep))
  | [] => []
  | u :: us =>
    (u, (clone u).map processSingleRepository) :: processRepositoriesTrace clone us

/-- add_tracker_init_to_file with its try/except: the read result and
the write outcome are parameters (an exception value on failure); any
exception is caught and reported as no change, never propagated (the
result type is a plain Bool). -/
def addTrackerInitToFileRun (readResult : Except String (List Char))
    (write : List Char → Except String Unit) : Bool :=
  match readResult with
  | .error _ => false
  | .ok content =>
    match addTrackerInitToFile content with
    | (_, false) => false
    | (c, true) =>
      match write c with
      | .error _ => false
      | .ok _ => true

/-- A project-config or lockfile-style content on which the section
header occurs only inside a larger line: the substring gate passes but
the line-exact insertion loop finds nothing, so the function rewrites
identical content and still reports a change. -/
def tomlDegenerate (header : List Char) (c : List Char) : Prop :=
  pyIn trackerDep c = false ∧ pyIn header c = true ∧
  ∀ l ∈ splitLines c, pyStrip l ≠ header

/-- A repository state on which add_dependency reports a change while
changing nothing: the chosen manifest is pyproject.toml or Pipfile in
the degenerate header-as-substring-only situation. -/
def addDepDegenerate (r : Repo) : Prop :=
  getRoot r "requirements.txt" = none ∧
  ((∃ c, getRoot r "pyproject.toml" = some c ∧ tomlDegenerate pyprojectHeader c) ∨
   (getRoot r "pyproject.toml" = none ∧ getRoot r "setup.py" = none ∧
    ∃ c, getRoot r "Pipfile" = some c ∧ tomlDegenerate packagesHeader c))

/-- Post-state invariant of one add_dependency run, by chosen manifest:
the manifest that a second run would choose either already carries the
dependency name, is gated off (missing section header, missing
install_requires list), or is in the degenerate header-as-substring-only
state. -/
def DepPost (r1 : Repo) : Prop :=
  (∃ c, getRoot r1 "requirements.txt" = some c ∧ pyIn trackerDep c = true) ∨
  (getRoot r1 "requirements.txt" = none ∧
   ∃ c, getRoot r1 "pyproject.toml" = some c ∧
     (pyIn trackerDep c = true ∨ pyIn pyprojectHeader c = false ∨
      tomlDegenerate pyprojectHeader c)) ∨
  (getRoot r1 "requirements.txt" = none ∧ getRoot r1 "pyproject.toml" = none ∧
   ∃ c, getRoot r1 "setup.py" = some c ∧
     (pyIn trackerDep c = true ∨ searchIR c = none)) ∨
  (getRoot r1 "requirements.txt" = none ∧ getRoot r1 "pyproject.toml" = none ∧
   getRoot r1 "setup.py" = none ∧
   ∃ c, getRoot r1 "Pipfile" = some c ∧
     (pyIn trackerDep c = true ∨ pyIn packagesHeader c = false ∨
      tomlDegenerate packagesHeader c))

/-! ## Helper lemmas about the line utilities -/

theorem joinLines_cons_cons (l l2 : List Char) (ls : List (List Char)) :
    joinLines (l :: l2 :: ls) = l ++ '\n' :: joinLines (l2 :: ls) := rfl

theorem splitLines_ne_nil (c : List Char) : splitLines c ≠ [] := by
  cases c with
  | nil => simp [splitLines]
  | cons ch rest =>
    rw [splitLines]
    by_cases h : ch = '\n'
    · simp [h]
    · simp only [if_neg h]
      cases hs : splitLines rest <;> simp

theorem joinLines_splitLines (c : List Char) : joinLines (splitLines c) = c := by
  induction c with
  | nil => rfl
  | cons ch rest ih =>
    rw [splitLines]
    by_cases h : ch = '\n'
    · rw [if_pos h]
      cases hs : splitLines rest with
      | nil => exact absurd hs (splitLines_ne_nil rest)
      | cons l ls =>
        rw [hs] at ih
        rw [joinLines_cons_cons, h]
        simp only [List.nil_append]
        rw [ih]
    · rw [if_neg h]
      cases hs : splitLines rest with
      | nil => exact absurd hs (splitLines_ne_nil rest)
      | cons l ls =>
        rw [hs] at ih
        cases ls with
        | nil =>
          simp only [joinLines] at ih ⊢
          rw [ih]
        | cons l2 ls2 =>
          rw [joinLines_cons_cons] at ih ⊢
          rw [List.cons_append, ih]

theorem splitLines_append (a b : List Char) :
    splitLines (a ++ '\n' :: b) = splitLines a ++ splitLines b := by
  induction a with
  | nil => simp [splitLines]
  | cons ch a' ih =>
    by_cases h : ch = '\n'
    · subst h
      rw [List.cons_append, splitLines, if_pos rfl, splitLines, if_pos rfl, ih]
      simp
    · rw [List.cons_append, splitLines, if_neg h, splitLines, if_neg h]
      cases hs : splitLines a' with
      | nil => exact absurd hs (splitLines_ne_nil a')
      | cons l ls =>
        rw [hs] at ih
        rw [ih]
        simp

theorem splitLines_eq_single (l : List Char) (h : '\n' ∉ l) : splitLines l = [l] := by
  induction l with
  | nil => rfl
  | cons ch rest ih =>
    rw [splitLines]
    have hch : ¬(ch = '\n') := fun he => h (he ▸ List.mem_cons_self ch rest)
    rw [if_neg hch]
    rw [ih (fun hm => h (List.mem_cons_of_mem ch hm))]

theorem not_newline_of_mem_splitLines {c : List Char} {l : List Char}
    (h : l ∈ splitLines c) : '\n' ∉ l := by
  induction c generalizing l with
  | nil =>
    simp [splitLines] at h
    subst h
    simp
  | cons ch rest ih =>
    rw [splitLines] at h
    by_cases hch : ch = '\n'
    · rw [if_pos hch] at h
      rcases List.mem_cons.mp h with h1 | h1
      · subst h1; simp
      · exact ih h1
    · rw [if_neg hch] at h
      cases hs : splitLines rest with
      | nil => exact absurd hs (splitLines_ne_nil rest)
      | cons l0 ls =>
        rw [hs] at h
        rcases List.mem_cons.mp h with h1 | h1
        · subst h1
          intro hm
          rcases List.mem_cons.mp hm with h2 | h2
          · exact hch h2.symm
          · exact ih (hs ▸ List.mem_cons_self l0 ls) h2
        · exact ih (hs ▸ List.mem_cons_of_mem l0 h1)

theorem splitLines_joinLines {ls : List (List Char)} (hne : ls ≠ [])
    (h : ∀ l ∈ ls, '\n' ∉ l) : splitLines (joinLines ls) = ls := by
  induction ls with
  | nil => exact absurd rfl hne
  | cons l ls ih =>
    cases ls with
    | nil =>
      rw [joinLines]
      exact splitLines_eq_single l (h l (List.mem_cons_self l []))
    | cons l2 ls2 =>
      rw [joinLines_cons_cons, splitLines_append]
      rw [splitLines_eq_single l (h l (List.mem_cons_self l _))]
      rw [ih (by simp) (fun x hx => h x (List.mem_cons_of_mem l hx))]
      simp

theorem infixOf_joinLines {l : List Char} {ls : List (List Char)}
    (h : l ∈ ls) : l <:+: joinLines ls := by
  induction ls with
  | nil => simp at h
  | cons a ls ih =>
    cases ls with
    | nil =>
      rw [List.mem_singleton] at h
      subst h
      exact List.infix_refl l
    | cons b ls2 =>
      rcases List.mem_cons.mp h with h1 | h1
      · subst h1
        rw [joinLines_cons_cons]
        exact (List.prefix_append l _).isInfix
      · rw [joinLines_cons_cons]
        refine (ih h1).trans ?_
        exact ((List.suffix_append (a ++ ['\n']) _).isInfix).trans
          (by rw [List.append_assoc]; simp [List.infix_refl])

theorem pyStripEnd_prefixSelf (l : List Char) : pyStripEnd l <+: l := by
  have h := List.dropWhile_suffix (l := l.reverse) isPySpace
  have := List.reverse_prefix.mpr h
  simpa [pyStripEnd] using this

theorem pyStrip_infixSelf (l : List Char) : pyStrip l <:+: l := by
  rw [pyStrip]
  exact (pyStripEnd_prefixSelf _).isInfix.trans
    (List.dropWhile_suffix isPySpace).isInfix

theorem pyIn_iff {needle hay : List Char} : pyIn needle hay = true ↔ needle <:+: hay := by
  simp [pyIn]

/-! ## Helper lemmas about root-file reads and writes -/

theorem getRoot_cons (f : RepoFile) (fs : Repo) (n : String) :
    getRoot (f :: fs) n =
      if isRootFileNamed n f then some f.content else getRoot fs n := by
  by_cases hp : isRootFileNamed n f <;> simp [getRoot, hp]

theorem isRootFileNamed_set (n : String) (f : RepoFile) (c : List Char) :
    isRootFileNamed n { f with content := c } = isRootFileNamed n f := rfl

theorem getRoot_setRoot_self (r : Repo) (n : String) (c : List Char) :
    getRoot (setRoot r n c) n = some c := by
  induction r with
  | nil => simp [setRoot, getRoot, isRootFileNamed]
  | cons f fs ih =>
    rw [setRoot]
    by_cases h : isRootFileNamed n f
    · rw [if_pos h, getRoot_cons]
      rw [isRootFileNamed_set, if_pos h]
    · rw [if_neg h, getRoot_cons, if_neg h]
      exact ih

theorem name_eq_of_isRootFileNamed {n : String} {f : RepoFile}
    (h : isRootFileNamed n f = true) : f.name = n := by
  simp [isRootFileNamed] at h
  exact h.2

theorem getRoot_setRoot_ne (r : Repo) (n m : String) (c : List Char)
    (hnm : n ≠ m) : getRoot (setRoot r m c) n = getRoot r n := by
  induction r with
  | nil =>
    simp [setRoot, getRoot, isRootFileNamed]
    intro he
    exact absurd he.symm hnm
  | cons f fs ih =>
    rw [setRoot]
    by_cases h : isRootFileNamed m f
    · have hf : ¬ (isRootFileNamed n f = true) := by
        intro hn
        exact hnm ((name_eq_of_isRootFileNamed hn) ▸ (name_eq_of_isRootFileNamed h))
      rw [if_pos h, getRoot_cons, isRootFileNamed_set, if_neg hf, getRoot_cons, if_neg hf]
    · rw [if_neg h, getRoot_cons, getRoot_cons]
      by_cases hp : isRootFileNamed n f
      · rw [if_pos hp, if_pos hp]
      · rw [if_neg hp, if_neg hp]
        exact ih

theorem setRoot_of_getRoot_eq (r : Repo) (n : String) (c : List Char)
    (h : getRoot r n = some c) : setRoot r n c = r := by
  induction r with
  | nil => simp [getRoot] at h
  | cons f fs ih =>
    rw [setRoot]
    by_cases hf : isRootFileNamed n f
    · rw [if_pos hf]
      rw [getRoot_cons, if_pos hf] at h
      have : c = f.content := by simpa using h.symm
      rw [this]
    · rw [if_neg hf]
      rw [getRoot_cons, if_neg hf] at h
      rw [ih h]

/-! ## Helper lemmas about the toml-style insertion -/

theorem insertAfterTomlHeader_append (header : List Char) (A : List (List Char))
    (hd : List Char) (B : List (List Char))
    (hA : ∀ l ∈ A, pyStrip l ≠ header) (hh : pyStrip hd = header) :
    insertAfterTomlHeader header (A ++ hd :: B) = A ++ hd :: tomlEntry :: B := by
  induction A with
  | nil =>
    rw [List.nil_append, insertAfterTomlHeader, if_pos hh, List.nil_append]
  | cons a A ih =>
    rw [List.cons_append, insertAfterTomlHeader,
      if_neg (hA a (List.mem_cons_self a A)), List.cons_append]
    rw [ih (fun l hl => hA l (List.mem_cons_of_mem a hl))]

theorem insertAfterTomlHeader_of_no_match (header : List Char)
    (ls : List (List Char)) (h : ∀ l ∈ ls, pyStrip l ≠ header) :
    insertAfterTomlHeader header ls = ls := by
  induction ls with
  | nil => rfl
  | cons a ls ih =>
    rw [insertAfterTomlHeader, if_neg (h a (List.mem_cons_self a ls))]
    rw [ih (fun l hl => h l (List.mem_cons_of_mem a hl))]

theorem header_infix_of_line {c hd : List Char} {header : List Char}
    (hmem : hd ∈ splitLines c) (hh : pyStrip hd = header) :
    pyIn header c = true := by
  rw [pyIn_iff]
  have h1 : header <:+: hd := hh ▸ pyStrip_infixSelf hd
  have h2 : hd <:+: c := joinLines_splitLines c ▸ infixOf_joinLines hmem
  exact h1.trans h2

/-! ## Claim theorems -/

/-- Claim C1, counterexample: on a pyproject.toml content where the
dependencies-section header appears only inside a larger line (here a
quoted string) and the dependency name is absent, add_to_pyproject
reports a change (returns true) while inserting no line at all: the
content is returned unchanged.  This contradicts the claim, which
demands that exactly one new line be inserted immediately after the
header whenever the header is present and the name is absent (and, on
the header-as-a-line reading, contradicts its no-header clause, which
demands that no change be reported). -/
theorem claim_C1_counterexample :
    pyIn pyprojectHeader "deps = \"[tool.poetry.dependencies]\"".data = true ∧
    pyIn trackerDep "deps = \"[tool.poetry.dependencies]\"".data = false ∧
    addToPyproject "deps = \"[tool.poetry.dependencies]\"".data =
      ("deps = \"[tool.poetry.dependencies]\"".data, true) ∧
    (splitLines (addToPyproject "deps = \"[tool.poetry.dependencies]\"".data).1).length =
      (splitLines "deps = \"[tool.poetry.dependencies]\"".data).length := by
  refine ⟨by decide, by decide, by decide, by decide⟩

/-- Claim C1 (amended): if the content contains the dependencies-section
header as a whole line (a line whose stripped text is exactly the
header) and no occurrence of the dependency name, add_to_pyproject
inserts exactly one new line (the pinned dependency entry) immediately
after the first such header line and returns true; if the content does
not contain the header as a substring at all, the file content is
returned unedited and the function returns false. -/
theorem claim_C1_amended :
    (∀ (c : List Char) (A : List (List Char)) (hd : List Char) (B : List (List Char)),
      pyIn trackerDep c = false →
      splitLines c = A ++ hd :: B →
      pyStrip hd = pyprojectHeader →
      (∀ l ∈ A, pyStrip l ≠ pyprojectHeader) →
      addToPyproject c = (joinLines (A ++ hd :: tomlEntry :: B), true)) ∧
    (∀ c : List Char, pyIn pyprojectHeader c = false →
      addToPyproject c = (c, false)) := by
  constructor
  · intro c A hd B hname hsplit hhd hA
    have hmem : hd ∈ splitLines c := by
      rw [hsplit]
      exact List.mem_append_right A (List.mem_cons_self hd B)
    have hheader : pyIn pyprojectHeader c = true := header_infix_of_line hmem hhd
    rw [addToPyproject, addToTomlSection, if_neg (by rw [hname]; simp), if_pos hheader]
    rw [hsplit, insertAfterTomlHeader_append pyprojectHeader A hd B hA hhd]
  · intro c hheader
    rw [addToPyproject, addToTomlSection]
    by_cases hname : pyIn trackerDep c = true
    · rw [if_pos hname]
    · rw [if_neg hname, if_neg (by rw [hheader]; simp)]

/-- Witness for claim C1: a concrete pyproject.toml with the header line
gets exactly the entry line inserted right below it, and a content
without the header is reported unchanged. -/
theorem claim_C1_witness :
    addToPyproject "[tool.poetry.dependencies]\nrequests = \"2.0\"".data =
      (joinLines ([] ++ "[tool.poetry.dependencies]".data ::
        tomlEntry :: ["requests = \"2.0\"".data]), true) ∧
    addToPyproject "requests = \"2.0\"".data = ("requests = \"2.0\"".data, false) :=
  ⟨claim_C1_amended.1 _ [] _ _ (by decide) (by decide) (by decide) (by decide),
   claim_C1_amended.2 _ (by decide)⟩

/-- Claim C2, counterexample: on a requirements.txt content that does
not end with a newline and does not contain the dependency name,
add_to_requirements appends the raw text, gluing the dependency name to
the last existing line: the name does not end up on its own line of the
resulting file, contradicting the claim. -/
theorem claim_C2_counterexample :
    pyIn trackerDep "numpy".data = false ∧
    addToRequirements "numpy".data = ("numpydbdemos-tracker\n".data, true) ∧
    trackerDep ∉ splitLines (addToRequirements "numpy".data).1 := by
  refine ⟨by decide, by decide, by decide⟩

/-- Claim C2 (amended): when the dependency name does not occur in the
content as a substring, add_to_requirements appends the raw text of the
name followed by a newline and returns true; the name then ends up on
its own line provided the original content was empty or ended with a
newline.  When the name already occurs anywhere as a substring (even in
a comment), the content is returned unchanged with result false. -/
theorem claim_C2_amended :
    (∀ c : List Char, pyIn trackerDep c = false →
      addToRequirements c = (c ++ trackerDepLine, true)) ∧
    (∀ c : List Char, pyIn trackerDep c = true →
      addToRequirements c = (c, false)) ∧
    (∀ c : List Char, pyIn trackerDep c = false →
      (c = [] ∨ ∃ c0, c = c0 ++ ['\n']) →
      trackerDep ∈ splitLines (addToRequirements c).1) := by
  refine ⟨?_, ?_, ?_⟩
  · intro c h
    rw [addToRequirements, if_neg (by rw [h]; simp)]
  · intro c h
    rw [addToRequirements, if_pos h]
  · intro c h hend
    rw [addToRequirements, if_neg (by rw [h]; simp)]
    have hline : trackerDepLine = trackerDep ++ '\n' :: [] := by decide
    rcases hend with rfl | ⟨c0, rfl⟩
    · decide
    · rw [hline, List.append_assoc, List.singleton_append, splitLines_append]
      refine List.mem_append_right _ ?_
      rw [splitLines_append, splitLines_eq_single trackerDep (by decide)]
      simp

/-- Witness for claim C2: a concrete newline-terminated requirements.txt
without the dependency gains it as its own line. -/
theorem claim_C2_witness :
    addToRequirements "requests\n".data = ("requests\n".data ++ trackerDepLine, true) ∧
    trackerDep ∈ splitLines (addToRequirements "requests\n".data).1 :=
  ⟨claim_C2_amended.1 _ (by decide),
   claim_C2_amended.2.2 _ (by decide) (Or.inr ⟨"requests".data, by decide⟩)⟩

/-- Claim C9: the source scan returns true for any .py file not under a
hidden directory whose text matches the import regular expression
anywhere; the extra conjuncts show that a match inside a comment counts,
and that a module name that merely begins with dbdemos_tracker (here
dbdemos_tracker_utils, and a quoted dotted import) also matches, since
the pattern has no trailing word boundary. -/
theorem claim_C9 :
    (∀ (r : Repo) (f : RepoFile), f ∈ r →
      strEndsWith f.name ".py" = true →
      (∀ d ∈ f.dirs, strStartsWith d "." = false) →
      trackerRegexSearch f.content = true →
      checkTrackerImports r = true) ∧
    trackerRegexSearch "# import dbdemos_tracker_utils in a comment".data = true ∧
    trackerRegexSearch "s = \"from dbdemos_tracker.sub import helper\"".data = true := by
  refine ⟨?_, by decide, by decide⟩
  intro r f hf hpy hdirs hsearch
  rw [checkTrackerImports, List.any_eq_true]
  refine ⟨f, hf, ?_⟩
  rw [hpy, hsearch]
  have hall : f.dirs.all (fun d => !strStartsWith d ".") = true := by
    rw [List.all_eq_true]
    intro d hd
    rw [hdirs d hd]
    rfl
  rw [hall]
  rfl

/-- Witness for claim C9: a concrete repository with one source file
under a non-hidden directory whose only mention of the tracker is a
commented import of a longer module name is still detected. -/
theorem claim_C9_witness :
    checkTrackerImports
      [⟨["src"], "app.py", "# import dbdemos_tracker_utils in a comment".data⟩] = true :=
  claim_C9.1 _ _ (List.mem_singleton.mpr rfl) (by decide) (by decide) (by decide)

/-- Claim C10: with the read result and write outcome of the target file
modelled as fallible parameters, add_tracker_init_to_file catches a read
exception and a write exception and reports false instead of
propagating (its result type is a plain Bool, so processing always
continues); the computation between read and write is pure in this
model and cannot raise.  The changes-made flag of add_tracker_to_repo
is then exactly the Dependency Patcher result when the initialization
patch reports false. -/
theorem claim_C10 :
    (∀ (write : List Char → Except String Unit) (e : String),
      addTrackerInitToFileRun (.error e) write = false) ∧
    (∀ (c p : List Char) (write : List Char → Except String Unit) (e : String),
      addTrackerInitToFile c = (p, true) → write p = .error e →
      addTrackerInitToFileRun (.ok c) write = false) ∧
    (∀ dep : Bool, addTrackerToRepoFlag dep false = dep) := by
  refine ⟨fun write e => rfl, ?_, fun dep => by cases dep <;> rfl⟩
  intro c p write e h1 h2
  rw [addTrackerInitToFileRun, h1]
  show (match write p with | Except.error _ => false | Except.ok _ => true) = false
  rw [h2]

/-- Witness for claim C10: a failing read and a failing write on a
concrete file are both reported as no change, and the aggregate flag
follows the dependency result. -/
theorem claim_C10_witness :
    addTrackerInitToFileRun (.error "read failed") (fun _ => .ok ()) = false ∧
    addTrackerInitToFileRun (.ok "x = 1".data) (fun _ => .error "disk full") = false ∧
    addTrackerToRepoFlag true false = true :=
  ⟨claim_C10.1 _ "read failed",
   claim_C10.2.1 "x = 1".data
     "import dbdemos_tracker\nx = 1\n\n# Initialize dbdemos tracker\ndbdemos_tracker.initialize()".data
     _ "disk full" (by decide) rfl,
   claim_C10.2.2 true⟩

/-- Claim C8: the per-repository catch-all makes the batch total — the
trace of process_repositories covers every URL in order regardless of
which clones fail, each entry depending only on its own repository; in
particular with three URLs whose second clone throws, the first and
third are fully processed and the failure is recorded, never
propagated. -/
theorem claim_C8 :
    (∀ (clone : String → Except String Repo) (urls : List String),
      (processRepositoriesTrace clone urls).map Prod.fst = urls) ∧
    (∀ (clone : String → Except String Repo) (u1 u2 u3 e : String) (r1 r3 : Repo),
      clone u1 = .ok r1 → clone u2 = .error e → clone u3 = .ok r3 →
      processRepositoriesTrace clone [u1, u2, u3] =
        [(u1, .ok (processSingleRepository r1)), (u2, .error e),
         (u3, .ok (processSingleRepository r3))]) := by
  constructor
  · intro clone urls
    induction urls with
    | nil => rfl
    | cons u us ih => rw [processRepositoriesTrace, List.map_cons, ih]
  · intro clone u1 u2 u3 e r1 r3 h1 h2 h3
    rw [processRepositoriesTrace, processRepositoriesTrace, processRepositoriesTrace,
      processRepositoriesTrace, h1, h2, h3]
    rfl

/-- Witness for claim C8: a concrete batch of three URLs whose second
clone fails is fully traversed, with the outer entries processed. -/
theorem claim_C8_witness :
    processRepositoriesTrace
      (fun u => if u = "b" then .error "clone failed" else .ok ([] : Repo))
      ["a", "b", "c"] =
      [("a", .ok (processSingleRepository [])), ("b", .error "clone failed"),
       ("c", .ok (processSingleRepository []))] :=
  claim_C8.2 _ "a" "b" "c" "clone failed" [] []
    (by rw [if_neg (by decide)]) (by rw [if_pos rfl]) (by rw [if_neg (by decide)])

/-- Claim C5: if some recognized manifest file exists at the repository
root and contains the dependency name as a substring, the Detector
returns true and the Orchestrator performs no further step for that
repository — in particular neither the Dependency Patcher nor the
Initialization Patcher is invoked, and the workspace is untouched. -/
theorem claim_C5 (r : Repo) (n : String) (c : List Char)
    (hn : n ∈ depFileNames) (hc : getRoot r n = some c)
    (hdep : pyIn trackerDep c = true) :
    checkTrackerExists r = true ∧ processSingleRepository r = (r, []) := by
  have h1 : checkDependencyFiles r = true := by
    rw [checkDependencyFiles, List.any_eq_true]
    refine ⟨n, hn, ?_⟩
    rw [hc]
    exact hdep
  have h2 : checkTrackerExists r = true := by
    rw [checkTrackerExists, h1]
    rfl
  exact ⟨h2, by rw [processSingleRepository, if_pos h2]⟩

/-- Witness for claim C5: a repository whose requirements.txt already
lists the dependency is skipped without any patch step. -/
theorem claim_C5_witness :
    checkTrackerExists [⟨[], "requirements.txt", "dbdemos-tracker\n".data⟩] = true ∧
    processSingleRepository [⟨[], "requirements.txt", "dbdemos-tracker\n".data⟩] =
      ([⟨[], "requirements.txt", "dbdemos-tracker\n".data⟩], []) :=
  claim_C5 _ "requirements.txt" "dbdemos-tracker\n".data
    (by decide) (by decide) (by decide)

/-- Common shape of the four chosen-manifest branches of add_dependency:
the repository is either untouched or rewritten only at the chosen
manifest name. -/
theorem addDependency_chosen_cases (r : Repo) (m : String) (p : List Char × Bool)
    (had : addDependency r = (if p.2 then setRoot r m p.1 else r, p.2))
    (hch : chosenManifest r = some m) :
    (∀ m' n : String, chosenManifest r = some m' → n ≠ m' →
      getRoot (addDependency r).1 n = getRoot r n) ∧
    (∀ m' : String, chosenManifest r = some m' →
      (addDependency r).1 = r ∨ ∃ c, (addDependency r).1 = setRoot r m' c) ∧
    (chosenManifest r = none →
      addDependency r = (setRoot r "requirements.txt" trackerDepLine, true) ∧
      getRoot (addDependency r).1 "requirements.txt" = some trackerDepLine ∧
      ∀ n : String, n ≠ "requirements.txt" →
        getRoot (addDependency r).1 n = getRoot r n) := by
  refine ⟨?_, ?_, ?_⟩
  · intro m' n hm' hn
    rw [hch] at hm'
    injection hm' with hm'
    subst hm'
    rw [had]
    by_cases hb : p.2 = true
    · simp only [hb, if_true]
      exact getRoot_setRoot_ne r n m p.1 hn
    · simp [hb]
  · intro m' hm'
    rw [hch] at hm'
    injection hm' with hm'
    subst hm'
    rw [had]
    by_cases hb : p.2 = true
    · exact Or.inr ⟨p.1, by simp [hb]⟩
    · exact Or.inl (by simp [hb])
  · intro hnone
    rw [hch] at hnone
    exact absurd hnone (by simp)

/-- Claim C6: add_dependency targets at most the manifest chosen by the
fixed preference order (requirements.txt, pyproject.toml, setup.py,
Pipfile): every other root file — in particular every later-preference
manifest, even if present — is byte-for-byte unchanged, and the
resulting repository differs from the input at most by a rewrite of the
chosen name; when none of the four exists, a new requirements.txt is
created whose content is exactly the dependency name on its own line
and the patcher reports a change, all other files unchanged. -/
theorem claim_C6 (r : Repo) :
    (∀ m n : String, chosenManifest r = some m → n ≠ m →
      getRoot (addDependency r).1 n = getRoot r n) ∧
    (∀ m : String, chosenManifest r = some m →
      (addDependency r).1 = r ∨ ∃ c, (addDependency r).1 = setRoot r m c) ∧
    (chosenManifest r = none →
      addDependency r = (setRoot r "requirements.txt" trackerDepLine, true) ∧
      getRoot (addDependency r).1 "requirements.txt" = some trackerDepLine ∧
      ∀ n : String, n ≠ "requirements.txt" →
        getRoot (addDependency r).1 n = getRoot r n) := by
  cases hreq : getRoot r "requirements.txt" with
  | some c =>
    exact addDependency_chosen_cases r "requirements.txt" (addToRequirements c)
      (by simp only [addDependency, hreq]) (by simp [chosenManifest, hreq])
  | none =>
  cases hpy : getRoot r "pyproject.toml" with
  | some c =>
    exact addDependency_chosen_cases r "pyproject.toml" (addToPyproject c)
      (by simp only [addDependency, hreq, hpy]) (by simp [chosenManifest, hreq, hpy])
  | none =>
  cases hsu : getRoot r "setup.py" with
  | some c =>
    exact addDependency_chosen_cases r "setup.py" (addToSetupPy c)
      (by simp only [addDependency, hreq, hpy, hsu])
      (by simp [chosenManifest, hreq, hpy, hsu])
  | none =>
  cases hpi : getRoot r "Pipfile" with
  | some c =>
    exact addDependency_chosen_cases r "Pipfile" (addToPipfile c)
      (by simp only [addDependency, hreq, hpy, hsu, hpi])
      (by simp [chosenManifest, hreq, hpy, hsu, hpi])
  | none =>
    have hch : chosenManifest r = none := by
      simp [chosenManifest, hreq, hpy, hsu, hpi]
    have had : addDependency r = (setRoot r "requirements.txt" trackerDepLine, true) := by
      simp only [addDependency, hreq, hpy, hsu, hpi]
    refine ⟨?_, ?_, ?_⟩
    · intro m n hm
      rw [hch] at hm
      exact absurd hm (by simp)
    · intro m hm
      rw [hch] at hm
      exact absurd hm (by simp)
    · intro _
      refine ⟨had, ?_, ?_⟩
      · rw [had]
        exact getRoot_setRoot_self r _ _
      · intro n hn
        rw [had]
        exact getRoot_setRoot_ne r n _ _ hn

/-- Witness for claim C6: with pyproject.toml chosen, a present
later-preference Pipfile is untouched; with no manifest at all, the
default requirements.txt is created and a change is reported. -/
theorem claim_C6_witness :
    getRoot (addDependency [⟨[], "pyproject.toml", "x = 1".data⟩,
      ⟨[], "Pipfile", "[packages]\n".data⟩]).1 "Pipfile" =
      getRoot [⟨[], "pyproject.toml", "x = 1".data⟩,
        ⟨[], "Pipfile", "[packages]\n".data⟩] "Pipfile" ∧
    addDependency [] = (setRoot [] "requirements.txt" trackerDepLine, true) :=
  ⟨(claim_C6 _).1 "pyproject.toml" "Pipfile" (by decide) (by decide),
   ((claim_C6 []).2.2 (by decide)).1⟩

/-! ## Helper lemmas about the initialization patcher -/

theorem mem_insertAt_self {α : Type} (ls : List α) (n : Nat) (x : α) :
    x ∈ insertAt ls n x := by
  rw [insertAt]
  exact List.mem_append_right _ (List.mem_cons_self x _)

theorem mem_insertAt_of_mem {α : Type} {y : α} {ls : List α} (n : Nat) (x : α)
    (h : y ∈ ls) : y ∈ insertAt ls n x := by
  rw [insertAt]
  rcases List.mem_append.mp ((List.take_append_drop n ls).symm ▸ h) with h1 | h1
  · exact List.mem_append_left _ h1
  · exact List.mem_append_right _ (List.mem_cons_of_mem x h1)

theorem mem_of_tryGuardInsert {ls out : List (List Char)}
    (h : tryGuardInsert ls = some out) {y : List Char} (hy : y ∈ ls) : y ∈ out := by
  rw [tryGuardInsert] at h
  cases hf : findIdxFrom isMainGuardLine ls with
  | none => simp [hf] at h
  | some i =>
    rw [hf] at h
    cases hp : findInitPosInBlock (ls.drop (i + 1)) with
    | none => simp [hp] at h
    | some off =>
      simp only [hp] at h
      injection h with h
      subst h
      exact mem_insertAt_of_mem _ _ hy

theorem mem_of_tryMainInsert {ls out : List (List Char)}
    (h : tryMainInsert ls = some out) {y : List Char} (hy : y ∈ ls) : y ∈ out := by
  rw [tryMainInsert] at h
  cases hf : findIdxFrom isDefMainLine ls with
  | none => simp [hf] at h
  | some i =>
    rw [hf] at h
    cases hp : skipBlankComment (ls.drop (i + 1)) with
    | none => simp [hp] at h
    | some q =>
      simp only [hp] at h
      injection h with h
      subst h
      exact mem_insertAt_of_mem _ _ hy

theorem addTrackerInitToFile_changed_hasImport (c : List Char)
    (h : ¬(pyIn importMarker1 c = true ∨ pyIn importMarker2 c = true)) :
    pyIn importMarker1 (addTrackerInitToFile c).1 = true := by
  rw [addTrackerInitToFile, if_neg (by simpa [Bool.or_eq_true] using h)]
  dsimp only
  have hmem1 : importMarker1 ∈
      insertAt (splitLines c) (importInsertIdx (splitLines c)) importMarker1 :=
    mem_insertAt_self _ _ _
  cases hg : tryGuardInsert
      (insertAt (splitLines c) (importInsertIdx (splitLines c)) importMarker1) with
  | some ls =>
    simp only [hg]
    exact pyIn_iff.mpr (infixOf_joinLines (mem_of_tryGuardInsert hg hmem1))
  | none =>
    simp only [hg]
    cases hm : tryMainInsert
        (insertAt (splitLines c) (importInsertIdx (splitLines c)) importMarker1) with
    | some ls =>
      simp only [hm]
      exact pyIn_iff.mpr (infixOf_joinLines (mem_of_tryMainInsert hm hmem1))
    | none =>
      simp only [hm]
      exact pyIn_iff.mpr (infixOf_joinLines (List.mem_append_left _ hmem1))

/-- Claim C4: the Initialization Patcher never inserts twice — if the
file content already contains the tracker import under either syntax
(as a plain substring, before and independently of any check of the
initialization call itself) the file is returned unedited with result
false; and applying the patcher to its own output always yields no
change, because any changed output contains the inserted import
statement. -/
theorem claim_C4 (c : List Char) :
    ((pyIn importMarker1 c = true ∨ pyIn importMarker2 c = true) →
      addTrackerInitToFile c = (c, false)) ∧
    addTrackerInitToFile (addTrackerInitToFile c).1 =
      ((addTrackerInitToFile c).1, false) := by
  have hguard : ∀ x : List Char,
      (pyIn importMarker1 x = true ∨ pyIn importMarker2 x = true) →
      addTrackerInitToFile x = (x, false) := by
    intro x hx
    rw [addTrackerInitToFile, if_pos (by rcases hx with h | h <;> simp [h])]
  refine ⟨hguard c, ?_⟩
  by_cases h : pyIn importMarker1 c = true ∨ pyIn importMarker2 c = true
  · rw [hguard c h]
    exact hguard c h
  · exact hguard _ (Or.inl (addTrackerInitToFile_changed_hasImport c h))

/-- Witness for claim C4: a file that imports the tracker module without
calling its entry function is left untouched, and re-running the patcher
on a freshly patched file changes nothing. -/
theorem claim_C4_witness :
    addTrackerInitToFile "from dbdemos_tracker import client\nx = 1".data =
      ("from dbdemos_tracker import client\nx = 1".data, false) ∧
    addTrackerInitToFile (addTrackerInitToFile "print(1)".data).1 =
      ((addTrackerInitToFile "print(1)".data).1, false) :=
  ⟨(claim_C4 "from dbdemos_tracker import client\nx = 1".data).1 (Or.inr (by decide)),
   (claim_C4 "print(1)".data).2⟩

theorem insertAt_append_left {α : Type} (A X : List α) (n : Nat) (x : α)
    (h : n ≤ A.length) : insertAt (A ++ X) n x = insertAt A n x ++ X := by
  rw [insertAt, insertAt, List.take_append_of_le_length h,
    List.drop_append_of_le_length h]
  simp

theorem insertAt_append_right {α : Type} (A X : List α) (n : Nat) (x : α)
    (h : A.length ≤ n) : insertAt (A ++ X) n x = A ++ insertAt X (n - A.length) x := by
  obtain ⟨m, rfl⟩ : ∃ m, n = A.length + m := ⟨n - A.length, by omega⟩
  rw [insertAt, insertAt, List.drop_append, List.take_append,
    Nat.add_sub_cancel_left, List.append_assoc]

theorem insertAt_cons_succ {α : Type} (a : α) (l : List α) (n : Nat) (x : α) :
    insertAt (a :: l) (n + 1) x = a :: insertAt l n x := by
  simp [insertAt]

theorem insertAt_length_append {α : Type} (X Y : List α) (x : α) :
    insertAt (X ++ Y) X.length x = X ++ x :: Y := by
  rw [insertAt, List.take_left, List.drop_left]

theorem mem_of_mem_insertAt {α : Type} {y : α} {ls : List α} {n : Nat} {x : α}
    (h : y ∈ insertAt ls n x) : y ∈ ls ∨ y = x := by
  rw [insertAt] at h
  rcases List.mem_append.mp h with h1 | h1
  · exact Or.inl (List.take_subset n ls h1)
  · rcases List.mem_cons.mp h1 with h2 | h2
    · exact Or.inr h2
    · exact Or.inl (List.drop_subset n ls h2)

theorem findIdxFrom_append {α : Type} (p : α → Bool) (P : List α) (x : α)
    (Q : List α) (hP : ∀ l ∈ P, p l = false) (hx : p x = true) :
    findIdxFrom p (P ++ x :: Q) = some P.length := by
  induction P with
  | nil => simp [findIdxFrom, hx]
  | cons a P ih =>
    rw [List.cons_append, findIdxFrom, if_neg (by simp [hP a (List.mem_cons_self a P)])]
    rw [ih (fun l hl => hP l (List.mem_cons_of_mem a hl))]
    rfl

theorem importInsertIdx_append_case (A rest : List (List Char)) :
    (importInsertIdx (A ++ rest) ≤ A.length ∧ importInsertIdx rest = 0) ∨
    (∃ j, importInsertIdx rest = j + 1 ∧
      importInsertIdx (A ++ rest) = A.length + j + 1) := by
  induction A with
  | nil =>
    cases hr : importInsertIdx rest with
    | zero => exact Or.inl ⟨by simp [hr], rfl⟩
    | succ j => exact Or.inr ⟨j, rfl, by simp [hr]⟩
  | cons a A ih =>
    rw [List.cons_append, importInsertIdx]
    rcases ih with ⟨hle, h0⟩ | ⟨j, hj, hv⟩
    · by_cases hz : importInsertIdx (A ++ rest) = 0
      · rw [hz]
        refine Or.inl ⟨?_, h0⟩
        by_cases ha : isImportLine a = true <;> simp [ha] <;> omega
      · rw [if_neg hz]
        exact Or.inl ⟨by simp; omega, h0⟩
    · have hz : importInsertIdx (A ++ rest) ≠ 0 := by omega
      rw [if_neg hz]
      exact Or.inr ⟨j, hj, by simp [hv]; omega⟩

theorem importInsertIdx_append_of_none (A rest : List (List Char))
    (hA : ∀ l ∈ A, isImportLine l = false) :
    importInsertIdx (A ++ rest) =
      if importInsertIdx rest = 0 then 0 else A.length + importInsertIdx rest := by
  induction A with
  | nil =>
    by_cases hr : importInsertIdx rest = 0
    · simp [hr]
    · simp [hr]
  | cons a A ih =>
    rw [List.cons_append, importInsertIdx,
      ih (fun l hl => hA l (List.mem_cons_of_mem a hl))]
    by_cases hr : importInsertIdx rest = 0
    · rw [if_pos hr, if_pos hr]
      simp [hA a (List.mem_cons_self a A)]
    · rw [if_neg hr, if_neg hr, if_neg (by simp; omega)]
      simp
      omega

theorem findInitPosInBlock_append (B : List (List Char)) (s : List Char)
    (C : List (List Char))
    (hB : ∀ l ∈ B, blockScanCond l = true ∧ blockStmtCond l = false)
    (hscan : blockScanCond s = true) (hstmt : blockStmtCond s = true) :
    findInitPosInBlock (B ++ s :: C) = some B.length := by
  induction B with
  | nil =>
    rw [List.nil_append, findInitPosInBlock, if_pos hscan, if_pos hstmt]
    rfl
  | cons b B ih =>
    obtain ⟨hb1, hb2⟩ := hB b (List.mem_cons_self b B)
    rw [List.cons_append, findInitPosInBlock, if_pos hb1,
      if_neg (by simp [hb2]),
      ih (fun l hl => hB l (List.mem_cons_of_mem b hl))]
    rfl

theorem blockScanCond_of_head {s : List Char}
    (h : s.head? = some ' ' ∨ s.head? = some '\t') : blockScanCond s = true := by
  rw [blockScanCond]
  rcases h with h | h <;> simp [h]

theorem blockStmtCond_of_stmt {s : List Char} (h2 : pyStrip s ≠ [])
    (h3 : "#".data.isPrefixOf (pyStrip s) = false) : blockStmtCond s = true := by
  rw [blockStmtCond]
  simp [h2, h3]

theorem isImportLine_eq_false_of_not_stmt {b : List Char}
    (h : blockStmtCond b = false) : isImportLine b = false := by
  rw [blockStmtCond] at h
  simp only [Bool.and_eq_false_iff, Bool.not_eq_false', Bool.not_eq_false,
    decide_eq_true_eq] at h
  rcases h with h | h
  · rw [isImportLine, h]
    decide
  · obtain ⟨t, ht⟩ : ∃ t, pyStrip b = '#' :: t := by
      have hp : "#".data <+: pyStrip b := by simpa using h
      obtain ⟨u, hu⟩ := hp
      exact ⟨u, hu.symm⟩
    rw [isImportLine, ht]
    simp [List.isPrefixOf]

theorem guard_insert_shape (c : List Char) (A1 : List (List Char)) (g s : List Char)
    (B C1 : List (List Char))
    (himp : (pyIn importMarker1 c || pyIn importMarker2 c) = false)
    (hlines1 : insertAt (splitLines c) (importInsertIdx (splitLines c)) importMarker1
       = A1 ++ g :: (B ++ s :: C1))
    (hA1 : ∀ l ∈ A1, isMainGuardLine l = false)
    (hg : isMainGuardLine g = true)
    (hB : ∀ l ∈ B, blockScanCond l = true ∧ blockStmtCond l = false)
    (hscan : blockScanCond s = true) (hstmt : blockStmtCond s = true)
    (hnl : ∀ l ∈ A1 ++ g :: (B ++ s :: C1), '\n' ∉ l) :
    (addTrackerInitToFile c).2 = true ∧
    splitLines (addTrackerInitToFile c).1 = (A1 ++ g :: B) ++ initCallLine :: s :: C1 := by
  have hdrop : (A1 ++ g :: (B ++ s :: C1)).drop (A1.length + 1) = B ++ s :: C1 := by
    rw [List.append_cons, List.drop_left' (by simp)]
  have hguard : tryGuardInsert (A1 ++ g :: (B ++ s :: C1)) =
      some ((A1 ++ g :: B) ++ initCallLine :: s :: C1) := by
    rw [tryGuardInsert, findIdxFrom_append _ A1 g _ hA1 hg]
    simp only [hdrop, findInitPosInBlock_append B s C1 hB hscan hstmt]
    have heq : A1 ++ g :: (B ++ s :: C1) = (A1 ++ g :: B) ++ (s :: C1) := by simp
    have hlen : A1.length + 1 + B.length = (A1 ++ g :: B).length := by
      simp
      omega
    rw [heq, hlen, insertAt_length_append]
  rw [addTrackerInitToFile, if_neg (by simp [himp] : ¬ ((pyIn importMarker1 c ||
    pyIn importMarker2 c) = true))]
  dsimp only
  rw [hlines1, hguard]
  refine ⟨rfl, ?_⟩
  apply splitLines_joinLines (by simp)
  intro l hl
  rcases List.mem_append.mp hl with h1 | h1
  · rcases List.mem_append.mp h1 with h2 | h2
    · exact hnl l (List.mem_append_left _ h2)
    · rcases List.mem_cons.mp h2 with h3 | h3
      · exact hnl l (List.mem_append_right _ (h3 ▸ List.mem_cons_self g _))
      · exact hnl l (List.mem_append_right _ (List.mem_cons_of_mem g
          (List.mem_append_left _ h3)))
  · rcases List.mem_cons.mp h1 with h2 | h2
    · subst h2
      decide
    · rcases List.mem_cons.mp h2 with h3 | h3
      · exact hnl l (List.mem_append_right _ (List.mem_cons_of_mem g
          (List.mem_append_right _ (h3 ▸ List.mem_cons_self s _))))
      · exact hnl l (List.mem_append_right _ (List.mem_cons_of_mem g
          (List.mem_append_right _ (List.mem_cons_of_mem s h3))))

/-- Claim C7: on an entry file without the tracker import whose lines
consist of a prefix A (no guard marker, so the scan finds the real
guard), a main-guard line that is not itself import-style, a possibly
empty run of blank or indented comment lines, and then a single
indented substantive statement, add_tracker_init_to_file reports a
change and the initialization call appears as a new line, indented with
4 spaces, immediately before that statement. -/
theorem claim_C7 (c : List Char) (A : List (List Char)) (g : List Char)
    (B : List (List Char)) (s : List Char) (C : List (List Char))
    (himp : (pyIn importMarker1 c || pyIn importMarker2 c) = false)
    (hsplit : splitLines c = A ++ g :: (B ++ s :: C))
    (hAg : ∀ l ∈ A, isMainGuardLine l = false)
    (hg : isMainGuardLine g = true)
    (hgimp : isImportLine g = false)
    (hB : ∀ l ∈ B, blockScanCond l = true ∧ blockStmtCond l = false)
    (hs1 : s.head? = some ' ' ∨ s.head? = some '\t')
    (hs2 : pyStrip s ≠ [])
    (hs3 : "#".data.isPrefixOf (pyStrip s) = false) :
    (addTrackerInitToFile c).2 = true ∧
    ∃ P Q, splitLines (addTrackerInitToFile c).1 =
      P ++ initCallLine :: s :: Q := by
  have hscan := blockScanCond_of_head hs1
  have hstmt := blockStmtCond_of_stmt hs2 hs3
  have hnlc : ∀ l ∈ splitLines c, '\n' ∉ l := fun l hl =>
    not_newline_of_mem_splitLines hl
  have hnlsplit : ∀ l, l ∈ A ∨ l = g ∨ l ∈ B ∨ l = s ∨ l ∈ C → '\n' ∉ l := by
    intro l hl
    apply hnlc l
    rw [hsplit]
    rcases hl with h | h | h | h | h
    · exact List.mem_append_left _ h
    · subst h
      exact List.mem_append_right _ (List.mem_cons_self _ _)
    · exact List.mem_append_right _ (List.mem_cons_of_mem _ (List.mem_append_left _ h))
    · subst h
      exact List.mem_append_right _ (List.mem_cons_of_mem _
        (List.mem_append_right _ (List.mem_cons_self _ _)))
    · exact List.mem_append_right _ (List.mem_cons_of_mem _
        (List.mem_append_right _ (List.mem_cons_of_mem _ h)))
  have hnlimp : '\n' ∉ importMarker1 := by decide
  have hsplit2 : splitLines c = A ++ ((g :: B) ++ (s :: C)) := by
    rw [hsplit]
    simp
  have hmid : ∀ l ∈ (g :: B), isImportLine l = false := by
    intro l hl
    rcases List.mem_cons.mp hl with h | h
    · exact h ▸ hgimp
    · exact isImportLine_eq_false_of_not_stmt (hB l h).2
  obtain ⟨K, hK⟩ : ∃ K, importInsertIdx (splitLines c) = K := ⟨_, rfl⟩
  rcases importInsertIdx_append_case A ((g :: B) ++ (s :: C)) with ⟨hk, _⟩ | ⟨j, hj, hk⟩
  · -- the import is inserted inside the prefix A
    have hkle : K ≤ A.length := by
      rw [← hK, hsplit2]
      exact hk
    have hL1 : insertAt (splitLines c) (importInsertIdx (splitLines c)) importMarker1 =
        insertAt A K importMarker1 ++ (g :: (B ++ s :: C)) := by
      rw [hK, hsplit]
      exact insertAt_append_left A _ K _ hkle
    have hA1 : ∀ l ∈ insertAt A K importMarker1,
        isMainGuardLine l = false := by
      intro l hl
      rcases mem_of_mem_insertAt hl with h1 | h1
      · exact hAg l h1
      · subst h1
        decide
    have hnl : ∀ l ∈ insertAt A K importMarker1 ++
        g :: (B ++ s :: C), '\n' ∉ l := by
      intro l hl
      rcases List.mem_append.mp hl with h1 | h1
      · rcases mem_of_mem_insertAt h1 with h2 | h2
        · exact hnlsplit l (Or.inl h2)
        · subst h2
          exact hnlimp
      · rcases List.mem_cons.mp h1 with h2 | h2
        · exact hnlsplit l (Or.inr (Or.inl h2))
        · rcases List.mem_append.mp h2 with h3 | h3
          · exact hnlsplit l (Or.inr (Or.inr (Or.inl h3)))
          · rcases List.mem_cons.mp h3 with h4 | h4
            · exact hnlsplit l (Or.inr (Or.inr (Or.inr (Or.inl h4))))
            · exact hnlsplit l (Or.inr (Or.inr (Or.inr (Or.inr h4))))
    obtain ⟨h1, h2⟩ := guard_insert_shape c _ g s B C himp hL1 hA1 hg hB hscan hstmt hnl
    exact ⟨h1, _, _, h2⟩
  · -- the import is inserted after the statement line
    have hif := importInsertIdx_append_of_none (g :: B) (s :: C) hmid
    rw [hj] at hif
    by_cases hr2 : importInsertIdx (s :: C) = 0
    · rw [if_pos hr2] at hif
      exact absurd hif (by omega)
    · rw [if_neg hr2] at hif
      obtain ⟨r2, hr2e⟩ : ∃ r2, importInsertIdx (s :: C) = r2 + 1 :=
        ⟨importInsertIdx (s :: C) - 1, by omega⟩
      have hKeq : K = A.length + j + 1 := by
        rw [← hK, hsplit2]
        exact hk
      have hL1 : insertAt (splitLines c) (importInsertIdx (splitLines c)) importMarker1 =
          A ++ g :: (B ++ s :: insertAt C r2 importMarker1) := by
        rw [hK, hKeq, hsplit2]
        rw [insertAt_append_right A _ _ _ (by omega)]
        have he1 : A.length + j + 1 - A.length = j + 1 := by omega
        rw [he1]
        rw [insertAt_append_right (g :: B) _ _ _ (by rw [hr2e] at hif; simp at hif ⊢; omega)]
        have he2 : j + 1 - (g :: B).length = r2 + 1 := by
          rw [hr2e] at hif
          simp at hif ⊢
          omega
        rw [he2, insertAt_cons_succ]
        simp
      have hnl : ∀ l ∈ A ++ g :: (B ++ s :: insertAt C r2 importMarker1), '\n' ∉ l := by
        intro l hl
        rcases List.mem_append.mp hl with h1 | h1
        · exact hnlsplit l (Or.inl h1)
        · rcases List.mem_cons.mp h1 with h2 | h2
          · exact hnlsplit l (Or.inr (Or.inl h2))
          · rcases List.mem_append.mp h2 with h3 | h3
            · exact hnlsplit l (Or.inr (Or.inr (Or.inl h3)))
            · rcases List.mem_cons.mp h3 with h4 | h4
              · exact hnlsplit l (Or.inr (Or.inr (Or.inr (Or.inl h4))))
              · rcases mem_of_mem_insertAt h4 with h5 | h5
                · exact hnlsplit l (Or.inr (Or.inr (Or.inr (Or.inr h5))))
                · subst h5
                  exact hnlimp
      obtain ⟨h1, h2⟩ := guard_insert_shape c A g s B _ himp hL1 hAg hg hB hscan hstmt hnl
      exact ⟨h1, _, _, h2⟩

/-- Witness for claim C7: the canonical entry file gains the call right
before the guarded statement. -/
theorem claim_C7_witness :
    (addTrackerInitToFile "import os\nif __name__ == \"__main__\":\n    main()".data).2 =
      true ∧
    ∃ P Q, splitLines
      (addTrackerInitToFile "import os\nif __name__ == \"__main__\":\n    main()".data).1 =
        P ++ initCallLine :: "    main()".data :: Q :=
  claim_C7 _ ["import os".data] "if __name__ == \"__main__\":".data []
    "    main()".data []
    (by decide) (by decide) (by decide) (by decide) (by decide) (by decide)
    (Or.inl (by decide)) (by decide) (by decide)

/-! ## Helper lemmas for the idempotence analysis -/

theorem addToRequirements_hasName (c : List Char) :
    pyIn trackerDep (addToRequirements c).1 = true := by
  rw [addToRequirements]
  by_cases h : pyIn trackerDep c = true
  · rw [if_pos h]
    exact h
  · rw [if_neg h]
    exact pyIn_iff.mpr
      (((by decide : trackerDep <+: trackerDepLine)).isInfix.trans
        (List.suffix_append c trackerDepLine).isInfix)

theorem addToRequirements_of_name {c : List Char}
    (h : pyIn trackerDep c = true) : addToRequirements c = (c, false) := by
  rw [addToRequirements, if_pos h]

theorem tomlEntry_mem_insertAfter (H : List Char) (ls : List (List Char))
    (hm : ∃ l ∈ ls, pyStrip l = H) : tomlEntry ∈ insertAfterTomlHeader H ls := by
  induction ls with
  | nil => simp at hm
  | cons a ls ih =>
    rw [insertAfterTomlHeader]
    by_cases ha : pyStrip a = H
    · rw [if_pos ha]
      exact List.mem_cons_of_mem a (List.mem_cons_self _ _)
    · rw [if_neg ha]
      obtain ⟨l, hl, hls⟩ := hm
      rcases List.mem_cons.mp hl with h1 | h1
      · exact absurd (h1 ▸ hls) ha
      · exact List.mem_cons_of_mem a (ih ⟨l, h1, hls⟩)

theorem toml_hasName_of_match {H c : List Char}
    (hm : ∃ l ∈ splitLines c, pyStrip l = H) :
    pyIn trackerDep (joinLines (insertAfterTomlHeader H (splitLines c))) = true := by
  refine pyIn_iff.mpr (((by decide : trackerDep <+: tomlEntry)).isInfix.trans ?_)
  exact infixOf_joinLines (tomlEntry_mem_insertAfter H _ hm)

theorem toml_join_id_of_no_match {H c : List Char}
    (hm : ∀ l ∈ splitLines c, pyStrip l ≠ H) :
    joinLines (insertAfterTomlHeader H (splitLines c)) = c := by
  rw [insertAfterTomlHeader_of_no_match H _ hm, joinLines_splitLines]

theorem replaceAll_hasNew {s old new : List Char} (hne : old ≠ [])
    (hinf : old <:+: s) : new <:+: replaceAll s old new := by
  induction s with
  | nil =>
    have hlen : old.length ≤ 0 := by simpa using hinf.length_le
    exact absurd (List.eq_nil_of_length_eq_zero (by omega)) hne
  | cons a s ih =>
    rw [replaceAll]
    by_cases h : old ≠ [] ∧ old.isPrefixOf (a :: s)
    · rw [dif_pos h]
      exact (List.prefix_append new _).isInfix
    · rw [dif_neg h]
      have hnp : ¬ old <+: (a :: s) := by
        intro hp
        exact h ⟨hne, by simpa using hp⟩
      rcases List.infix_cons_iff.mp hinf with h1 | h1
      · exact absurd h1 hnp
      · exact ((ih h1).trans (List.suffix_cons a _).isInfix)

theorem searchIR_drop {c : List Char} {p h d : Nat}
    (hs : searchIR c = some (p, h, d)) : matchIRAt (c.drop p) = some (h, d) := by
  induction c generalizing p with
  | nil => simp [searchIR] at hs
  | cons a t ih =>
    rw [searchIR] at hs
    cases hm : matchIRAt (a :: t) with
    | some q =>
      obtain ⟨q1, q2⟩ := q
      rw [hm] at hs
      simp only [Option.some.injEq, Prod.mk.injEq] at hs
      obtain ⟨hp, hq1, hq2⟩ := hs
      subst hp
      rw [List.drop_zero, hm, hq1, hq2]
    | none =>
      rw [hm] at hs
      cases hs2 : searchIR t with
      | none =>
        rw [hs2] at hs
        simp at hs
      | some x =>
        obtain ⟨x1, x2, x3⟩ := x
        rw [hs2] at hs
        simp at hs
        obtain ⟨hp, hx2, hx3⟩ := hs
        subst hx2
        subst hx3
        subst hp
        rw [List.drop_succ_cons]
        exact ih hs2

theorem matchIRAt_kw {s : List Char} {h d : Nat}
    (hm : matchIRAt s = some (h, d)) : irKw.isPrefixOf s = true := by
  rw [matchIRAt] at hm
  by_cases hk : irKw.isPrefixOf s = true
  · exact hk
  · rw [if_neg hk] at hm
    exact absurd hm (by simp)

theorem addToSetupPy_hasName_of_true {c : List Char}
    (ht : (addToSetupPy c).2 = true) :
    pyIn trackerDep (addToSetupPy c).1 = true := by
  by_cases hn : pyIn trackerDep c = true
  · rw [addToSetupPy, if_pos hn] at ht
    simp at ht
  · rw [addToSetupPy, if_neg hn] at ht ⊢
    cases hs : searchIR c with
    | none =>
      rw [hs] at ht
      simp at ht
    | some x =>
      obtain ⟨p, h, d⟩ := x
      dsimp only
      have hkw : irKw.isPrefixOf (c.drop p) = true := matchIRAt_kw (searchIR_drop hs)
      have hdropne : c.drop p ≠ [] := by
        intro habs
        rw [habs] at hkw
        exact absurd hkw (by decide)
      have hwne : (List.take (h + d + 1) (c.drop p)) ≠ [] := by
        rw [Ne, List.take_eq_nil_iff]
        simp [hdropne]
      have hwinf : (List.take (h + d + 1) (c.drop p)) <:+: c :=
        (List.take_prefix _ _).isInfix.trans (List.drop_suffix p c).isInfix
      have hnamemid : trackerDep <:+:
          (List.take h (c.drop p) ++
            (if pyStrip (List.take d (List.drop h (c.drop p))) = [] then setupEmptyEntry
             else List.take d (List.drop h (c.drop p)) ++ setupSepEntry) ++ [']']) := by
        refine List.IsInfix.trans ?_ (List.infix_append _ _ _)
        by_cases hdeps : pyStrip (List.take d (List.drop h (c.drop p))) = []
        · rw [if_pos hdeps]
          decide
        · rw [if_neg hdeps]
          exact ((by decide : trackerDep <:+: setupSepEntry)).trans
            (List.suffix_append _ _).isInfix
      exact pyIn_iff.mpr (hnamemid.trans (replaceAll_hasNew hwne hwinf))

theorem addToSetupPy_of_name {c : List Char}
    (h : pyIn trackerDep c = true) : addToSetupPy c = (c, false) := by
  rw [addToSetupPy, if_pos h]

theorem addToSetupPy_of_noIR {c : List Char} (h : searchIR c = none) :
    addToSetupPy c = (c, false) := by
  rw [addToSetupPy]
  by_cases hn : pyIn trackerDep c = true
  · rw [if_pos hn]
  · rw [if_neg hn, h]

theorem addToTomlSection_of_name {H c : List Char}
    (h : pyIn trackerDep c = true) : addToTomlSection H c = (c, false) := by
  rw [addToTomlSection, if_pos h]

theorem addToTomlSection_of_noHeader {H c : List Char}
    (h : pyIn H c = false) : addToTomlSection H c = (c, false) := by
  rw [addToTomlSection]
  by_cases hn : pyIn trackerDep c = true
  · rw [if_pos hn]
  · rw [if_neg hn, if_neg (by simp [h])]

theorem addToTomlSection_of_degenerate {H c : List Char}
    (hdeg : tomlDegenerate H c) : addToTomlSection H c = (c, true) := by
  obtain ⟨h1, h2, h3⟩ := hdeg
  rw [addToTomlSection, if_neg (by simp [h1]), if_pos h2, toml_join_id_of_no_match h3]

theorem addToTomlSection_snd_false {H c : List Char}
    (h : (addToTomlSection H c).2 = false) : (addToTomlSection H c).1 = c := by
  rw [addToTomlSection] at h ⊢
  by_cases hn : pyIn trackerDep c = true
  · rw [if_pos hn]
  · rw [if_neg hn] at h ⊢
    by_cases hh : pyIn H c = true
    · rw [if_pos hh] at h
      simp at h
    · rw [if_neg hh]

theorem addToSetupPy_snd_false {c : List Char}
    (h : (addToSetupPy c).2 = false) :
    addToSetupPy c = (c, false) ∧ (pyIn trackerDep c = true ∨ searchIR c = none) := by
  by_cases hn : pyIn trackerDep c = true
  · exact ⟨addToSetupPy_of_name hn, Or.inl hn⟩
  · cases hs : searchIR c with
    | none => exact ⟨addToSetupPy_of_noIR hs, Or.inr rfl⟩
    | some x =>
      obtain ⟨p, hh, d⟩ := x
      rw [addToSetupPy, if_neg hn, hs] at h
      simp at h

theorem addDependency_of_DepPost (r1 : Repo) (hp : DepPost r1) :
    (addDependency r1).1 = r1 ∧
    ((addDependency r1).2 = true ↔ addDepDegenerate r1) := by
  rcases hp with ⟨c, hc, hn⟩ | ⟨hreq, c, hc, hcase⟩ |
    ⟨hreq, hpy, c, hc, hcase⟩ | ⟨hreq, hpy, hsu, c, hc, hcase⟩
  · -- requirements.txt present, already carrying the name
    have had : addDependency r1 = (r1, false) := by
      simp only [addDependency, hc, addToRequirements_of_name hn]
      simp
    rw [had]
    refine ⟨rfl, ?_⟩
    simp only [Bool.false_eq_true, false_iff]
    intro hdeg
    rw [hdeg.1] at hc
    exact absurd hc (by simp)
  · -- pyproject.toml chosen on the second run
    have hnotdeg1 : pyIn trackerDep c = true → ¬ addDepDegenerate r1 := by
      intro hn hdeg
      rcases hdeg.2 with ⟨c', hc', hdeg'⟩ | ⟨hpy', _⟩
      · rw [hc] at hc'
        injection hc' with hc'
        rw [← hc'] at hdeg'
        rw [hdeg'.1] at hn
        exact absurd hn (by simp)
      · rw [hc] at hpy'
        exact absurd hpy' (by simp)
    have hnotdeg2 : pyIn pyprojectHeader c = false → ¬ addDepDegenerate r1 := by
      intro hh hdeg
      rcases hdeg.2 with ⟨c', hc', hdeg'⟩ | ⟨hpy', _⟩
      · rw [hc] at hc'
        injection hc' with hc'
        rw [← hc'] at hdeg'
        rw [hdeg'.2.1] at hh
        exact absurd hh (by simp)
      · rw [hc] at hpy'
        exact absurd hpy' (by simp)
    rcases hcase with hn | hh | hdeg
    · have had : addDependency r1 = (r1, false) := by
        simp only [addDependency, hreq, hc, addToPyproject,
          addToTomlSection_of_name hn]
        simp
      rw [had]
      exact ⟨rfl, by simp only [Bool.false_eq_true, false_iff]; exact hnotdeg1 hn⟩
    · have had : addDependency r1 = (r1, false) := by
        simp only [addDependency, hreq, hc, addToPyproject,
          addToTomlSection_of_noHeader hh]
        simp
      rw [had]
      exact ⟨rfl, by simp only [Bool.false_eq_true, false_iff]; exact hnotdeg2 hh⟩
    · have had : addDependency r1 = (setRoot r1 "pyproject.toml" c, true) := by
        simp only [addDependency, hreq, hc, addToPyproject,
          addToTomlSection_of_degenerate hdeg]
        simp
      rw [had, setRoot_of_getRoot_eq r1 _ c hc]
      refine ⟨rfl, ?_⟩
      simp only [true_iff]
      exact ⟨hreq, Or.inl ⟨c, hc, hdeg⟩⟩
  · -- setup.py chosen on the second run
    have hnotdeg : ¬ addDepDegenerate r1 := by
      intro hdeg
      rcases hdeg.2 with ⟨c', hc', _⟩ | ⟨_, hsu', _⟩
      · rw [hpy] at hc'
        exact absurd hc' (by simp)
      · rw [hc] at hsu'
        exact absurd hsu' (by simp)
    have had : addDependency r1 = (r1, false) := by
      rcases hcase with hn | hs
      · simp only [addDependency, hreq, hpy, hc, addToSetupPy_of_name hn]
        simp
      · simp only [addDependency, hreq, hpy, hc, addToSetupPy_of_noIR hs]
        simp
    rw [had]
    exact ⟨rfl, by simp only [Bool.false_eq_true, false_iff]; exact hnotdeg⟩
  · -- Pipfile chosen on the second run
    have hnotdeg1 : pyIn trackerDep c = true → ¬ addDepDegenerate r1 := by
      intro hn hdeg
      rcases hdeg.2 with ⟨c', hc', _⟩ | ⟨_, _, c', hc', hdeg'⟩
      · rw [hpy] at hc'
        exact absurd hc' (by simp)
      · rw [hc] at hc'
        injection hc' with hc'
        rw [← hc'] at hdeg'
        rw [hdeg'.1] at hn
        exact absurd hn (by simp)
    have hnotdeg2 : pyIn packagesHeader c = false → ¬ addDepDegenerate r1 := by
      intro hh hdeg
      rcases hdeg.2 with ⟨c', hc', _⟩ | ⟨_, _, c', hc', hdeg'⟩
      · rw [hpy] at hc'
        exact absurd hc' (by simp)
      · rw [hc] at hc'
        injection hc' with hc'
        rw [← hc'] at hdeg'
        rw [hdeg'.2.1] at hh
        exact absurd hh (by simp)
    rcases hcase with hn | hh | hdeg
    · have had : addDependency r1 = (r1, false) := by
        simp only [addDependency, hreq, hpy, hsu, hc, addToPipfile,
          addToTomlSection_of_name hn]
        simp
      rw [had]
      exact ⟨rfl, by simp only [Bool.false_eq_true, false_iff]; exact hnotdeg1 hn⟩
    · have had : addDependency r1 = (r1, false) := by
        simp only [addDependency, hreq, hpy, hsu, hc, addToPipfile,
          addToTomlSection_of_noHeader hh]
        simp
      rw [had]
      exact ⟨rfl, by simp only [Bool.false_eq_true, false_iff]; exact hnotdeg2 hh⟩
    · have had : addDependency r1 = (setRoot r1 "Pipfile" c, true) := by
        simp only [addDependency, hreq, hpy, hsu, hc, addToPipfile,
          addToTomlSection_of_degenerate hdeg]
        simp
      rw [had, setRoot_of_getRoot_eq r1 _ c hc]
      refine ⟨rfl, ?_⟩
      simp only [true_iff]
      exact ⟨hreq, Or.inr ⟨hpy, hsu, c, hc, hdeg⟩⟩

theorem DepPost_addDependency (r : Repo) : DepPost (addDependency r).1 := by
  unfold DepPost
  cases hreq : getRoot r "requirements.txt" with
  | some c =>
    have h1 : getRoot (addDependency r).1 "requirements.txt" =
        some ((addToRequirements c).1) := by
      simp only [addDependency, hreq]
      by_cases hb : (addToRequirements c).2 = true
      · rw [if_pos hb]
        exact getRoot_setRoot_self r _ _
      · rw [if_neg hb]
        have hfix : addToRequirements c = (c, false) := by
          rw [addToRequirements] at hb ⊢
          by_cases hn : pyIn trackerDep c = true
          · rw [if_pos hn]
          · rw [if_neg hn] at hb
            simp at hb
        rw [hfix]
        exact hreq
    exact Or.inl ⟨_, h1, addToRequirements_hasName c⟩
  | none =>
  cases hpy : getRoot r "pyproject.toml" with
  | some c =>
    have hr1 : (addDependency r).1 =
        (if (addToPyproject c).2 = true then
          setRoot r "pyproject.toml" (addToPyproject c).1 else r) := by
      simp only [addDependency, hreq, hpy]
    have hreq1 : getRoot (addDependency r).1 "requirements.txt" = none := by
      rw [hr1]
      by_cases hb : (addToPyproject c).2 = true
      · rw [if_pos hb, getRoot_setRoot_ne _ _ _ _ (by decide)]
        exact hreq
      · rw [if_neg hb]
        exact hreq
    have hpy1 : getRoot (addDependency r).1 "pyproject.toml" =
        some ((addToPyproject c).1) := by
      rw [hr1]
      by_cases hb : (addToPyproject c).2 = true
      · rw [if_pos hb]
        exact getRoot_setRoot_self r _ _
      · rw [if_neg hb]
        have hfix : (addToPyproject c).1 = c := by
          rw [addToPyproject] at hb ⊢
          exact addToTomlSection_snd_false (by simpa using hb)
        rw [hfix]
        exact hpy
    refine Or.inr (Or.inl ⟨hreq1, (addToPyproject c).1, hpy1, ?_⟩)
    by_cases hn : pyIn trackerDep c = true
    · left
      rw [addToPyproject, addToTomlSection_of_name hn]
      exact hn
    · by_cases hh : pyIn pyprojectHeader c = true
      · by_cases hmatch : ∃ l ∈ splitLines c, pyStrip l = pyprojectHeader
        · left
          have hfst : (addToPyproject c).1 =
              joinLines (insertAfterTomlHeader pyprojectHeader (splitLines c)) := by
            rw [addToPyproject, addToTomlSection, if_neg hn, if_pos hh]
          rw [hfst]
          exact toml_hasName_of_match hmatch
        · right
          right
          push_neg at hmatch
          have hfst : (addToPyproject c).1 = c := by
            rw [addToPyproject, addToTomlSection, if_neg hn, if_pos hh]
            exact toml_join_id_of_no_match hmatch
          rw [hfst]
          exact ⟨by simpa using hn, hh, hmatch⟩
      · right
        left
        have hfst : addToPyproject c = (c, false) := by
          rw [addToPyproject]
          exact addToTomlSection_of_noHeader (by simpa using hh)
        rw [hfst]
        simpa using hh
  | none =>
  cases hsu : getRoot r "setup.py" with
  | some c =>
    have hr1 : (addDependency r).1 =
        (if (addToSetupPy c).2 = true then
          setRoot r "setup.py" (addToSetupPy c).1 else r) := by
      simp only [addDependency, hreq, hpy, hsu]
    have hreq1 : getRoot (addDependency r).1 "requirements.txt" = none := by
      rw [hr1]
      by_cases hb : (addToSetupPy c).2 = true
      · rw [if_pos hb, getRoot_setRoot_ne _ _ _ _ (by decide)]
        exact hreq
      · rw [if_neg hb]
        exact hreq
    have hpy1 : getRoot (addDependency r).1 "pyproject.toml" = none := by
      rw [hr1]
      by_cases hb : (addToSetupPy c).2 = true
      · rw [if_pos hb, getRoot_setRoot_ne _ _ _ _ (by decide)]
        exact hpy
      · rw [if_neg hb]
        exact hpy
    have hsu1 : getRoot (addDependency r).1 "setup.py" =
        some ((addToSetupPy c).1) := by
      rw [hr1]
      by_cases hb : (addToSetupPy c).2 = true
      · rw [if_pos hb]
        exact getRoot_setRoot_self r _ _
      · rw [if_neg hb]
        rw [(addToSetupPy_snd_false (by simpa using hb)).1]
        exact hsu
    refine Or.inr (Or.inr (Or.inl ⟨hreq1, hpy1, (addToSetupPy c).1, hsu1, ?_⟩))
    by_cases hb : (addToSetupPy c).2 = true
    · exact Or.inl (addToSetupPy_hasName_of_true hb)
    · obtain ⟨heq, hor⟩ := addToSetupPy_snd_false (by simpa using hb)
      rw [heq]
      exact hor
  | none =>
  cases hpi : getRoot r "Pipfile" with
  | some c =>
    have hr1 : (addDependency r).1 =
        (if (addToPipfile c).2 = true then
          setRoot r "Pipfile" (addToPipfile c).1 else r) := by
      simp only [addDependency, hreq, hpy, hsu, hpi]
    have hreq1 : getRoot (addDependency r).1 "requirements.txt" = none := by
      rw [hr1]
      by_cases hb : (addToPipfile c).2 = true
      · rw [if_pos hb, getRoot_setRoot_ne _ _ _ _ (by decide)]
        exact hreq
      · rw [if_neg hb]
        exact hreq
    have hpy1 : getRoot (addDependency r).1 "pyproject.toml" = none := by
      rw [hr1]
      by_cases hb : (addToPipfile c).2 = true
      · rw [if_pos hb, getRoot_setRoot_ne _ _ _ _ (by decide)]
        exact hpy
      · rw [if_neg hb]
        exact hpy
    have hsu1 : getRoot (addDependency r).1 "setup.py" = none := by
      rw [hr1]
      by_cases hb : (addToPipfile c).2 = true
      · rw [if_pos hb, getRoot_setRoot_ne _ _ _ _ (by decide)]
        exact hsu
      · rw [if_neg hb]
        exact hsu
    have hpi1 : getRoot (addDependency r).1 "Pipfile" =
        some ((addToPipfile c).1) := by
      rw [hr1]
      by_cases hb : (addToPipfile c).2 = true
      · rw [if_pos hb]
        exact getRoot_setRoot_self r _ _
      · rw [if_neg hb]
        have hfix : (addToPipfile c).1 = c := by
          rw [addToPipfile] at hb ⊢
          exact addToTomlSection_snd_false (by simpa using hb)
        rw [hfix]
        exact hpi
    refine Or.inr (Or.inr (Or.inr ⟨hreq1, hpy1, hsu1, (addToPipfile c).1, hpi1, ?_⟩))
    by_cases hn : pyIn trackerDep c = true
    · left
      rw [addToPipfile, addToTomlSection_of_name hn]
      exact hn
    · by_cases hh : pyIn packagesHeader c = true
      · by_cases hmatch : ∃ l ∈ splitLines c, pyStrip l = packagesHeader
        · left
          have hfst : (addToPipfile c).1 =
              joinLines (insertAfterTomlHeader packagesHeader (splitLines c)) := by
            rw [addToPipfile, addToTomlSection, if_neg hn, if_pos hh]
          rw [hfst]
          exact toml_hasName_of_match hmatch
        · right
          right
          push_neg at hmatch
          have hfst : (addToPipfile c).1 = c := by
            rw [addToPipfile, addToTomlSection, if_neg hn, if_pos hh]
            exact toml_join_id_of_no_match hmatch
          rw [hfst]
          exact ⟨by simpa using hn, hh, hmatch⟩
      · right
        left
        have hfst : addToPipfile c = (c, false) := by
          rw [addToPipfile]
          exact addToTomlSection_of_noHeader (by simpa using hh)
        rw [hfst]
        simpa using hh
  | none =>
    have hr1 : (addDependency r).1 = setRoot r "requirements.txt" trackerDepLine := by
      simp only [addDependency, hreq, hpy, hsu, hpi]
    exact Or.inl ⟨trackerDepLine,
      by rw [hr1]; exact getRoot_setRoot_self r _ _, by decide⟩

/-- Claim C3, counterexample: on a repository whose only manifest is a
pyproject.toml in which the dependencies-section header occurs only
inside a larger line, the first add_dependency run leaves the state
unchanged yet reports a change, and the second run — contrary to the
claimed idempotence — again reports a change (returns true). -/
theorem claim_C3_counterexample :
    (addDependency [⟨[], "pyproject.toml",
      "x = \"[tool.poetry.dependencies]\"".data⟩]).1 =
      [⟨[], "pyproject.toml", "x = \"[tool.poetry.dependencies]\"".data⟩] ∧
    (addDependency (addDependency [⟨[], "pyproject.toml",
      "x = \"[tool.poetry.dependencies]\"".data⟩]).1).2 = true := by
  refine ⟨by decide, by decide⟩

/-- Claim C3 (amended): a second add_dependency run never changes any
file content (the repository state is exactly preserved), and it
reports no change except in the degenerate situation in which the
manifest it selects is a pyproject.toml or Pipfile whose section header
occurs only inside a larger line with the dependency name absent — in
exactly that situation every run rewrites identical content and reports
a change. -/
theorem claim_C3_amended (r : Repo) :
    (addDependency (addDependency r).1).1 = (addDependency r).1 ∧
    ((addDependency (addDependency r).1).2 = true ↔
      addDepDegenerate (addDependency r).1) :=
  addDependency_of_DepPost (addDependency r).1 (DepPost_addDependency r)
